import Mathlib

/-!
Verification of the portfolio valuation and reconciliation engine of the
Motus portfolio dashboard (Express backend `server/index.js`, React frontend
`client/src/App.js`).

Numbers (SQLite REAL columns, JS numbers) are embedded as `ℚ`; nullable
columns as `Option ℚ` with SQL `SUM` semantics (a NULL summand is skipped,
i.e. contributes `0`).  Strings keep their JS/SQL values; `upper` embeds
both SQLite `UPPER` and JS `toUpperCase` (token symbols are ASCII).
A SQL table is embedded as the list of its rows; `perf_tracker`, whose
`month` column carries a UNIQUE constraint, is embedded as a partial map
keyed by month.
-/

namespace PMS

/-- Embeds SQLite `UPPER(s)` and JS `s.toUpperCase()` (ASCII tokens). -/
def upper (s : String) : String := ⟨s.data.map Char.toUpper⟩

/-- `type` column of `trades`: CHECK(type IN ('Buy', 'Sell', 'Income')). -/
inductive TradeType
| Buy
| Sell
| Income
deriving DecidableEq, Repr

/-- A row of the `trades` table (`database.js`): `units REAL NOT NULL`,
`avg_price REAL`, `total REAL` (both nullable). -/
structure Trade where
  date : String
  token : String
  units : ℚ
  avg_price : Option ℚ
  total : Option ℚ
  ttype : TradeType
deriving DecidableEq, Repr

/-- `CASE WHEN type = 'Buy' THEN units WHEN type = 'Sell' THEN -units
WHEN type = 'Income' THEN units ELSE 0 END` (`index.js` holdings queries). -/
def signedUnits (t : Trade) : ℚ :=
  match t.ttype with
  | .Buy => t.units
  | .Sell => -t.units
  | .Income => t.units

/-- `CASE WHEN type = 'Buy' THEN total WHEN type = 'Sell' THEN -total
ELSE 0 END`; a NULL `total` is skipped by SQL `SUM`, i.e. contributes 0. -/
def signedTotal (t : Trade) : ℚ :=
  match t.ttype with
  | .Buy => t.total.getD 0
  | .Sell => -(t.total.getD 0)
  | .Income => 0

/-- The distinct `token` values of the trade list: the groups produced by
`GROUP BY token`. -/
def tokensOf (trades : List Trade) : List String :=
  (trades.map (·.token)).dedup

/-- `SUM(signed units)` of the group of trades with this exact token. -/
def totalUnits (trades : List Trade) (tok : String) : ℚ :=
  ((trades.filter fun t => t.token = tok).map signedUnits).sum

/-- `SUM(signed total)` of the group of trades with this exact token. -/
def costBasis (trades : List Trade) (tok : String) : ℚ :=
  ((trades.filter fun t => t.token = tok).map signedTotal).sum

/-- A row returned by `GET /portfolio`. -/
structure Holding where
  token : String
  total_units : ℚ
  cost_basis : ℚ
deriving DecidableEq, Repr

/-- `GET /portfolio` (`index.js` 248-268): per-token aggregation with the
dust filter `HAVING total_units > 0.0001 OR total_units < -0.0001`.
The query's `ORDER BY cost_basis DESC` merely permutes the rows; every
claim about this endpoint (membership, sums) is permutation-invariant, so
the rows are listed in first-occurrence order of their tokens. -/
def getPortfolio (trades : List Trade) : List Holding :=
  ((tokensOf trades).filter fun tok =>
      totalUnits trades tok > 1/10000 ∨ totalUnits trades tok < -(1/10000)).map
    fun tok => ⟨tok, totalUnits trades tok, costBasis trades tok⟩

/-- `type` column of `investors`: CHECK(type IN ('GP', 'LP')). -/
inductive InvestorType
| GP
| LP
deriving DecidableEq, Repr

/-- A row of the `investors` table: `amount REAL NOT NULL` (signed;
positive = subscription, negative = redemption). -/
structure InvestorFlow where
  month : String
  client : String
  itype : InvestorType
  amount : ℚ
deriving DecidableEq, Repr

/-- A row of the `exits` table: `cost_basis REAL NOT NULL`. -/
structure ExitRecord where
  token : String
  cost_basis : ℚ
  exit_date : Option String
deriving DecidableEq, Repr

/-- A row of the `perf_tracker` table; every numeric column is
`REAL DEFAULT 0` and every insert path defaults missing values to 0,
so the fields are plain rationals. -/
structure PerfRecord where
  month : String
  gp_subs : ℚ
  lp_subs : ℚ
  initial_value : ℚ
  ending_value : ℚ
  motus_return : ℚ
  btc_return : ℚ
  eth_return : ℚ
  cci30_return : ℚ
  sp_ex_mega_return : ℚ
  spx_return : ℚ
  qqq_return : ℚ
  fund_expenses : ℚ
  mgmt_fees : ℚ
  setup_costs : ℚ
deriving DecidableEq, Repr

/-- The response of `GET /portfolio/usdc`. -/
structure UsdcData where
  total_subscriptions : ℚ
  cost_basis : ℚ
  total_expenses : ℚ
  exits_cost_basis : ℚ
  usdc_balance : ℚ
deriving DecidableEq, Repr

/-- `GET /portfolio/usdc` (`index.js` 271-320): subscriptions total, signed
cost basis of non-USDC trades, expenses total over `perf_tracker`, exits
cost-basis total, and the residual
`usdcBalance = subscriptions - costBasis - totalExpenses - exitsCostBasis`. -/
def getPortfolioUsdc (flows : List InvestorFlow) (trades : List Trade)
    (perf : List PerfRecord) (exits : List ExitRecord) : UsdcData :=
  let subs := (flows.map (·.amount)).sum
  let cb := ((trades.filter fun t => ¬ upper t.token = "USDC").map signedTotal).sum
  let te := (perf.map (·.fund_expenses)).sum + (perf.map (·.mgmt_fees)).sum
    + (perf.map (·.setup_costs)).sum
  let ex := (exits.map (·.cost_basis)).sum
  ⟨subs, cb, te, ex, subs - cb - te - ex⟩

/-- C1: for every database state, `GET /portfolio/usdc` returns
`usdc_balance = total_subscriptions - total_cost_basis - total_expenses -
exits_cost_basis`, where `total_subscriptions` is the signed sum of all
investor-flow amounts, `total_cost_basis` the signed sum (Buy: +total,
Sell: -total, Income: 0) over trades whose uppercased token is not
"USDC", `total_expenses` the sum of `fund_expenses + mgmt_fees +
setup_costs` across all monthly performance records, and
`exits_cost_basis` the sum of all exit cost-basis values. -/
theorem usdc_balance_formula (flows : List InvestorFlow) (trades : List Trade)
    (perf : List PerfRecord) (exits : List ExitRecord) :
    (getPortfolioUsdc flows trades perf exits).usdc_balance
      = (flows.map (·.amount)).sum
        - ((trades.filter fun t => upper t.token ≠ "USDC").map signedTotal).sum
        - (perf.map fun r => r.fund_expenses + r.mgmt_fees + r.setup_costs).sum
        - (exits.map (·.cost_basis)).sum := by
  have hte : (perf.map fun r => r.fund_expenses + r.mgmt_fees + r.setup_costs).sum
      = (perf.map (·.fund_expenses)).sum + (perf.map (·.mgmt_fees)).sum
        + (perf.map (·.setup_costs)).sum := by
    induction perf with
    | nil => simp
    | cons r rest ih => simp [ih]; ring
  simp only [getPortfolioUsdc, ne_eq, hte]

@[simp] lemma signedUnits_buy (d tok : String) (u : ℚ) (ap tt : Option ℚ) :
    signedUnits ⟨d, tok, u, ap, tt, .Buy⟩ = u := rfl

@[simp] lemma signedUnits_sell (d tok : String) (u : ℚ) (ap tt : Option ℚ) :
    signedUnits ⟨d, tok, u, ap, tt, .Sell⟩ = -u := rfl

@[simp] lemma signedUnits_income (d tok : String) (u : ℚ) (ap tt : Option ℚ) :
    signedUnits ⟨d, tok, u, ap, tt, .Income⟩ = u := rfl

@[simp] lemma signedTotal_buy (d tok : String) (u : ℚ) (ap tt : Option ℚ) :
    signedTotal ⟨d, tok, u, ap, tt, .Buy⟩ = tt.getD 0 := rfl

@[simp] lemma signedTotal_sell (d tok : String) (u : ℚ) (ap tt : Option ℚ) :
    signedTotal ⟨d, tok, u, ap, tt, .Sell⟩ = -(tt.getD 0) := rfl

@[simp] lemma signedTotal_income (d tok : String) (u : ℚ) (ap tt : Option ℚ) :
    signedTotal ⟨d, tok, u, ap, tt, .Income⟩ = 0 := rfl

/-- The tokens of the rows returned by `GET /portfolio`. -/
def portfolioTokens (trades : List Trade) : List String :=
  (getPortfolio trades).map (·.token)

lemma map_token_mk (trades : List Trade) (l : List String) :
    (l.map fun tok =>
        (⟨tok, totalUnits trades tok, costBasis trades tok⟩ : Holding)).map (·.token)
      = l := by
  induction l with
  | nil => rfl
  | cons t ts ih => simp [ih]

lemma portfolioTokens_eq (trades : List Trade) :
    portfolioTokens trades
      = (tokensOf trades).filter fun tok =>
          totalUnits trades tok > 1/10000 ∨ totalUnits trades tok < -(1/10000) := by
  unfold portfolioTokens getPortfolio
  rw [map_token_mk]

lemma mem_portfolioTokens (trades : List Trade) (tok : String)
    (htok : tok ∈ tokensOf trades) :
    tok ∈ portfolioTokens trades
      ↔ totalUnits trades tok > 1/10000 ∨ totalUnits trades tok < -(1/10000) := by
  rw [portfolioTokens_eq, List.mem_filter]
  simp [htok]

/-- C6 counterexample: a token whose net `total_units` is exactly the dust
threshold `1e-4` (a single Buy of `1/10000` units) is excluded by the
`HAVING` clause, although its `|total_units|` is not below the threshold:
the exclusion condition is `|total_units| ≤ 1e-4`, not `< 1e-4`. -/
theorem dust_filter_counterexample :
    getPortfolio [⟨"2024-01", "ABC", 1/10000, none, some 1, .Buy⟩] = []
      ∧ ¬ |totalUnits [⟨"2024-01", "ABC", 1/10000, none, some 1, .Buy⟩] "ABC"|
          < 1/10000 := by
  have hu : totalUnits [⟨"2024-01", "ABC", 1/10000, none, some 1, .Buy⟩] "ABC"
      = 1/10000 := by
    simp [totalUnits]
  have htoks : tokensOf [⟨"2024-01", "ABC", 1/10000, none, some 1, .Buy⟩]
      = ["ABC"] := by
    simp [tokensOf]
  constructor
  · unfold getPortfolio
    rw [htoks]
    norm_num [hu]
  · rw [hu, abs_of_nonneg (by norm_num)]
    simp

/-- C6 amended: `GET /portfolio` excludes exactly those tokens (among the
tokens appearing in the trade list) whose net `|total_units|` is at most
the dust threshold `1e-4`; equivalently, a token is listed iff
`|total_units| > 1e-4`. -/
theorem dust_filter_boundary (trades : List Trade) (tok : String)
    (htok : tok ∈ tokensOf trades) :
    tok ∉ portfolioTokens trades ↔ |totalUnits trades tok| ≤ 1/10000 := by
  rw [mem_portfolioTokens trades tok htok]
  rw [not_or]
  constructor
  · rintro ⟨h1, h2⟩
    rw [abs_le]
    constructor <;> [linarith [not_lt.mp h2]; exact not_lt.mp h1]
  · intro h
    rcases abs_le.mp h with ⟨h1, h2⟩
    exact ⟨not_lt.mpr h2, not_lt.mpr h1⟩

/-- C6 witness: a token with `total_units = 0.00005` is excluded from the
holdings, one with `total_units = 0.0002` is listed. -/
theorem dust_filter_boundary_witness :
    "AAA" ∉ portfolioTokens [⟨"2024-01", "AAA", 1/20000, none, some 1, .Buy⟩]
      ∧ "BBB" ∈ portfolioTokens [⟨"2024-01", "BBB", 1/5000, none, some 1, .Buy⟩] := by
  have hu1 : totalUnits [⟨"2024-01", "AAA", 1/20000, none, some 1, .Buy⟩] "AAA"
      = 1/20000 := by
    simp [totalUnits]
  have hu2 : totalUnits [⟨"2024-01", "BBB", 1/5000, none, some 1, .Buy⟩] "BBB"
      = 1/5000 := by
    simp [totalUnits]
  constructor
  · refine (dust_filter_boundary _ _ ?_).mpr ?_
    · simp [tokensOf]
    · rw [hu1, abs_of_nonneg (by norm_num)]
      norm_num
  · by_contra hmem
    have h := (dust_filter_boundary
      [⟨"2024-01", "BBB", 1/5000, none, some 1, .Buy⟩] "BBB"
      (by simp [tokensOf])).mp hmem
    rw [hu2, abs_of_nonneg (by norm_num)] at h
    norm_num at h

/-- Splitting a sum of mapped values over a list by a decidable predicate. -/
lemma sum_map_filter_add_not {α : Type} (l : List α) (p : α → Prop)
    [DecidablePred p] (v : α → ℚ) :
    ((l.filter fun x => p x).map v).sum
      + ((l.filter fun x => ¬ p x).map v).sum = (l.map v).sum := by
  simp only [decide_not]
  induction l with
  | nil => simp
  | cons x xs ih => by_cases h : p x <;> simp [h] <;> linarith

lemma filter_key_of_ne {α β : Type} [DecidableEq β] (l : List α) (k : α → β)
    (b b' : β) (hbb : b' ≠ b) :
    l.filter (fun x => k x = b')
      = (l.filter fun x => ¬ k x = b).filter fun x => k x = b' := by
  rw [List.filter_filter]
  refine (List.filter_congr ?_)
  intro x _
  by_cases h1 : k x = b'
  · have h2 : ¬ k x = b := by rw [h1]; exact hbb
    simp [h1, h2, hbb]
  · simp [h1]

/-- Summing group-by-key subtotals over a duplicate-free covering key list
gives the total over the whole list. -/
lemma sum_group_by {α β : Type} [DecidableEq β] (keys : List β) (l : List α)
    (k : α → β) (v : α → ℚ) (hnd : keys.Nodup) (hcov : ∀ x ∈ l, k x ∈ keys) :
    (keys.map fun b => ((l.filter fun x => k x = b).map v).sum).sum
      = (l.map v).sum := by
  induction keys generalizing l with
  | nil =>
    cases l with
    | nil => simp
    | cons x xs => exact absurd (hcov x (by simp)) (by simp)
  | cons b rest ih =>
    have hnd' := (List.nodup_cons.mp hnd).2
    have hb := (List.nodup_cons.mp hnd).1
    have hrw : ∀ b' ∈ rest,
        ((l.filter fun x => k x = b').map v).sum
          = (((l.filter fun x => ¬ k x = b).filter fun x => k x = b').map v).sum := by
      intro b' hb'
      rw [← filter_key_of_ne l k b b' (by rintro rfl; exact hb hb')]
    have hcov' : ∀ x ∈ (l.filter fun x => ¬ k x = b), k x ∈ rest := by
      intro x hx
      rcases List.mem_filter.mp hx with ⟨hxl, hxb⟩
      have hx' := hcov x hxl
      rw [List.mem_cons] at hx'
      rcases hx' with h | h
      · exact absurd h (by simpa using hxb)
      · exact h
    calc (((b :: rest)).map fun c => ((l.filter fun x => k x = c).map v).sum).sum
        = ((l.filter fun x => k x = b).map v).sum
          + (rest.map fun c => ((l.filter fun x => k x = c).map v).sum).sum := by simp
      _ = ((l.filter fun x => k x = b).map v).sum
          + (rest.map fun c =>
              (((l.filter fun x => ¬ k x = b).filter fun x => k x = c).map v).sum).sum := by
            rw [List.map_congr_left hrw]
      _ = ((l.filter fun x => k x = b).map v).sum
          + ((l.filter fun x => ¬ k x = b).map v).sum := by
            rw [ih _ hnd' hcov']
      _ = (l.map v).sum := sum_map_filter_add_not l _ v

lemma filter_map_mk (trades : List Trade) (l : List String) :
    ((l.map fun tok =>
        (⟨tok, totalUnits trades tok, costBasis trades tok⟩ : Holding)).filter
          fun h => ¬ upper h.token = "USDC")
      = (l.filter fun tok => ¬ upper tok = "USDC").map fun tok =>
          (⟨tok, totalUnits trades tok, costBasis trades tok⟩ : Holding) := by
  simp only [decide_not]
  induction l with
  | nil => rfl
  | cons t ts ih => by_cases h : upper t = "USDC" <;> simp [h, ih]

lemma map_cost_mk (trades : List Trade) (l : List String) :
    ((l.map fun tok =>
        (⟨tok, totalUnits trades tok, costBasis trades tok⟩ : Holding)).map
          (·.cost_basis))
      = l.map fun tok => costBasis trades tok := by
  induction l with
  | nil => rfl
  | cons t ts ih => simp [ih]

/-- Filtering by `p` and then by a predicate `q` that (on this list) implies
`p` is the same as filtering by `q` alone. -/
lemma filter_filter_of_imp {α : Type} (l : List α) (p q : α → Prop)
    [DecidablePred p] [DecidablePred q] (h : ∀ x ∈ l, q x → p x) :
    (l.filter fun x => p x).filter (fun x => q x) = l.filter fun x => q x := by
  induction l with
  | nil => rfl
  | cons x xs ih =>
    have ih' := ih fun y hy hq => h y (List.mem_cons_of_mem x hy) hq
    by_cases hp : p x
    · by_cases hq : q x <;> simp [hp, hq, ih']
    · have hq : ¬ q x := fun hq => hp (h x (List.mem_cons_self x xs) hq)
      simp [hp, hq, ih']

/-- C2 counterexample: a position opened and fully closed at a loss (Buy 1
BTC for 100, Sell 1 BTC for 150) has net units 0, so the dust filter of
`GET /portfolio` removes the token; the holdings cost-basis sum is 0 while
the `cost_basis` term of `GET /portfolio/usdc` is `100 - 150 = -50`. -/
theorem holdings_costBasis_sum_counterexample :
    (((getPortfolio
          [⟨"2024-01", "BTC", 1, none, some 100, .Buy⟩,
           ⟨"2024-02", "BTC", 1, none, some 150, .Sell⟩]).filter
        fun h => ¬ upper h.token = "USDC").map (·.cost_basis)).sum
      ≠ (getPortfolioUsdc []
          [⟨"2024-01", "BTC", 1, none, some 100, .Buy⟩,
           ⟨"2024-02", "BTC", 1, none, some 150, .Sell⟩] [] []).cost_basis := by
  have hub : upper "BTC" = "BTC" := by decide
  have htoks : tokensOf
      [⟨"2024-01", "BTC", 1, none, some 100, .Buy⟩,
       ⟨"2024-02", "BTC", 1, none, some 150, .Sell⟩] = ["BTC"] := by
    simp [tokensOf]
  have hu : totalUnits
      [⟨"2024-01", "BTC", 1, none, some 100, .Buy⟩,
       ⟨"2024-02", "BTC", 1, none, some 150, .Sell⟩] "BTC" = 0 := by
    norm_num [totalUnits]
  have hport : getPortfolio
      [⟨"2024-01", "BTC", 1, none, some 100, .Buy⟩,
       ⟨"2024-02", "BTC", 1, none, some 150, .Sell⟩] = [] := by
    unfold getPortfolio
    rw [htoks]
    norm_num [hu]
  rw [hport]
  simp only [List.filter_nil, List.map_nil, List.sum_nil, getPortfolioUsdc]
  simp [hub]
  norm_num

/-- C2 amended: the holdings cost-basis sum over non-USDC tokens agrees
with the `cost_basis` term of the cash-residual endpoint for every trade
set in which no non-USDC token is removed by the dust filter (i.e. every
non-USDC token has `|total_units| > 1e-4`); for dust-filtered tokens with
nonzero residual cost basis the two sides differ. -/
theorem holdings_costBasis_sum_of_no_dust (flows : List InvestorFlow)
    (trades : List Trade) (perf : List PerfRecord) (exits : List ExitRecord)
    (hdust : ∀ tok ∈ tokensOf trades, upper tok ≠ "USDC" →
      (totalUnits trades tok > 1/10000 ∨ totalUnits trades tok < -(1/10000))) :
    (((getPortfolio trades).filter fun h => ¬ upper h.token = "USDC").map
        (·.cost_basis)).sum
      = (getPortfolioUsdc flows trades perf exits).cost_basis := by
  unfold getPortfolio
  rw [filter_map_mk, filter_filter_of_imp _ _ _
    (fun tok htok hq => hdust tok htok hq), map_cost_mk]
  have hkeys_nd : ((tokensOf trades).filter
      fun tok => ¬ upper tok = "USDC").Nodup :=
    List.Nodup.filter _ (List.nodup_dedup _)
  have hcov : ∀ t ∈ (trades.filter fun t => ¬ upper t.token = "USDC"),
      t.token ∈ (tokensOf trades).filter fun tok => ¬ upper tok = "USDC" := by
    intro t ht
    rcases List.mem_filter.mp ht with ⟨htl, htb⟩
    refine List.mem_filter.mpr ⟨?_, htb⟩
    exact List.mem_dedup.mpr (List.mem_map.mpr ⟨t, htl, rfl⟩)
  have hgrp := sum_group_by ((tokensOf trades).filter fun tok => ¬ upper tok = "USDC")
    (trades.filter fun t => ¬ upper t.token = "USDC") (·.token) signedTotal
    hkeys_nd hcov
  have hcb : ∀ tok ∈ (tokensOf trades).filter (fun tok => ¬ upper tok = "USDC"),
      costBasis trades tok
        = (((trades.filter fun t => ¬ upper t.token = "USDC").filter
            fun t => t.token = tok).map signedTotal).sum := by
    intro tok htok
    have hq : ¬ upper tok = "USDC" := by
      have h2 := (List.mem_filter.mp htok).2
      simpa using h2
    rw [filter_filter_of_imp trades _ _
      (fun t _ ht => by rw [ht]; exact hq)]
    rfl
  rw [List.map_congr_left hcb, hgrp]
  rfl

/-- C2 witness: with a single Buy of 1 BTC for 100 (net units 1, above the
dust threshold) both sides equal 100. -/
theorem holdings_costBasis_sum_of_no_dust_witness :
    (((getPortfolio [⟨"2024-01", "BTC", 1, none, some 100, .Buy⟩]).filter
        fun h => ¬ upper h.token = "USDC").map (·.cost_basis)).sum
      = (getPortfolioUsdc [] [⟨"2024-01", "BTC", 1, none, some 100, .Buy⟩]
          [] []).cost_basis := by
  refine holdings_costBasis_sum_of_no_dust [] _ [] [] ?_
  intro tok htok _
  simp [tokensOf] at htok
  subst htok
  left
  norm_num [totalUnits]

/-- A quote in the client's token→quote map. Live quotes from `GET /prices`
carry numeric percent-change fields (the server defaults them to 0);
manual quotes carry null (`none`) ones. -/
structure Quote where
  price : ℚ
  isManual : Bool
  percent_change_24h : Option ℚ
  percent_change_7d : Option ℚ
  percent_change_30d : Option ℚ
  percent_change_60d : Option ℚ
deriving DecidableEq, Repr

/-- A row of the `manual_prices` table: `price REAL NOT NULL`,
`token` UNIQUE. -/
structure ManualPrice where
  token : String
  price : ℚ
deriving DecidableEq, Repr

/-- The quote object built from a manual price row (`App.js` 1896-1903):
`isManual = true`, all four percent-change fields null. -/
def manualQuote (mp : ManualPrice) : Quote :=
  ⟨mp.price, true, none, none, none, none⟩

/-- The JS guard `!merged[mp.token] || !merged[mp.token].price`: the map
has no entry for the token, or the entry's price is falsy (i.e. 0). -/
def overrideNeeded : Option Quote → Prop
  | none => True
  | some q => q.price = 0

instance (q : Option Quote) : Decidable (overrideNeeded q) :=
  match q with
  | none => .isTrue trivial
  | some q => inferInstanceAs (Decidable (q.price = 0))

/-- One iteration of the `forEach` in `mergedPrices`. -/
def applyManual (acc : String → Option Quote) (mp : ManualPrice) :
    String → Option Quote :=
  if overrideNeeded (acc mp.token) then
    fun tok => if tok = mp.token then some (manualQuote mp) else acc tok
  else acc

/-- `mergedPrices` (`App.js` 1892-1907): copy the live price map, then fold
the manual price rows over it, substituting a manual quote exactly when the
accumulated map has no entry with a truthy price for that token. -/
def mergedPrices (prices : String → Option Quote) (manuals : List ManualPrice) :
    String → Option Quote :=
  manuals.foldl applyManual prices

lemma applyManual_ne (acc : String → Option Quote) (mp : ManualPrice)
    (tok : String) (h : ¬ tok = mp.token) : applyManual acc mp tok = acc tok := by
  unfold applyManual
  by_cases ho : overrideNeeded (acc mp.token) <;> simp [ho, h]

lemma foldl_applyManual_ne (manuals : List ManualPrice)
    (acc : String → Option Quote) (tok : String)
    (h : ∀ m ∈ manuals, ¬ m.token = tok) :
    manuals.foldl applyManual acc tok = acc tok := by
  induction manuals generalizing acc with
  | nil => rfl
  | cons m ms ih =>
    rw [List.foldl_cons, ih _ fun m' hm' => h m' (List.mem_cons_of_mem m hm'),
      applyManual_ne]
    intro he
    exact h m (List.mem_cons_self m ms) (he ▸ rfl)

lemma foldl_applyManual_keep (manuals : List ManualPrice)
    (acc : String → Option Quote) (tok : String) (q : Quote)
    (hq : acc tok = some q) (hqp : q.price ≠ 0) :
    manuals.foldl applyManual acc tok = some q := by
  induction manuals generalizing acc with
  | nil => exact hq
  | cons m ms ih =>
    rw [List.foldl_cons]
    by_cases he : tok = m.token
    · have : ¬ overrideNeeded (acc m.token) := by
        rw [← he, hq]
        exact hqp
      rw [applyManual, if_neg this] at *
      exact ih acc hq
    · exact ih _ ((applyManual_ne acc m tok he) ▸ hq)

lemma foldl_applyManual_find (manuals : List ManualPrice)
    (acc : String → Option Quote) (tok : String) (mp : ManualPrice)
    (hov : overrideNeeded (acc tok))
    (hfind : manuals.find? (fun m => m.token == tok) = some mp)
    (hnd : (manuals.map (·.token)).Nodup) :
    manuals.foldl applyManual acc tok = some (manualQuote mp) := by
  induction manuals generalizing acc with
  | nil => simp at hfind
  | cons m ms ih =>
    rw [List.map_cons, List.nodup_cons] at hnd
    rw [List.foldl_cons]
    by_cases he : m.token = tok
    · have hm : mp = m := by
        rw [List.find?_cons_of_pos _ (by simp [he])] at hfind
        exact (Option.some_inj.mp hfind).symm
      have hov' : overrideNeeded (acc m.token) := he ▸ hov
      have hstep : applyManual acc m tok = some (manualQuote m) := by
        rw [applyManual, if_pos hov']
        simp [he]
      have hrest : ∀ m' ∈ ms, ¬ m'.token = tok := by
        intro m' hm' hcon
        exact hnd.1 (List.mem_map.mpr ⟨m', hm', by rw [hcon, he]⟩)
      rw [foldl_applyManual_ne ms _ tok hrest, hstep, hm]
    · have hfind' : ms.find? (fun m => m.token == tok) = some mp := by
        rwa [List.find?_cons_of_neg _ (by simp [he])] at hfind
      have hov' : overrideNeeded (applyManual acc m tok) := by
        rwa [applyManual_ne acc m tok fun hc => he (hc ▸ rfl)]
      exact ih _ hov' hfind' hnd.2

/-- C5 counterexample: a token "XYZ" that IS present in the live quote map
(with price 0) is nonetheless replaced by its manual override, so the merge
does not use every present live quote unchanged. -/
theorem manual_override_counterexample :
    mergedPrices
        (fun tok => if tok = "XYZ" then
          some ⟨0, false, some 1, some 2, some 3, some 4⟩ else none)
        [⟨"XYZ", 10⟩] "XYZ"
      ≠ (fun tok => if tok = "XYZ" then
          some ⟨0, false, some 1, some 2, some 3, some 4⟩ else none) "XYZ" := by
  have hme : mergedPrices
      (fun tok => if tok = "XYZ" then
        some ⟨0, false, some 1, some 2, some 3, some 4⟩ else none)
      [⟨"XYZ", 10⟩] "XYZ" = some (manualQuote ⟨"XYZ", 10⟩) := by
    simp [mergedPrices, applyManual, overrideNeeded]
  rw [hme]
  simp [manualQuote]

/-- C5 amended: in the `mergedPrices` merge (with unique manual tokens, as
the DB enforces), a live quote with nonzero price is used unchanged, while
a manual override is substituted exactly when the live map has no entry for
the token or that entry's price is 0; a substituted quote carries the
manual price with `isManual = true` and all four percent-change fields
null. -/
theorem manual_override_merge (prices : String → Option Quote)
    (manuals : List ManualPrice) (tok : String)
    (hnd : (manuals.map (·.token)).Nodup) :
    (∀ q : Quote, prices tok = some q → q.price ≠ 0 →
      mergedPrices prices manuals tok = some q)
    ∧ (∀ mp : ManualPrice, overrideNeeded (prices tok) →
        manuals.find? (fun m => m.token == tok) = some mp →
        mergedPrices prices manuals tok
          = some ⟨mp.price, true, none, none, none, none⟩) := by
  constructor
  · intro q hq hqp
    exact foldl_applyManual_keep manuals prices tok q hq hqp
  · intro mp hov hfind
    exact foldl_applyManual_find manuals prices tok mp hov hfind hnd

/-- C5 witness: live quotes have BTC at 50000; the manual list prices XYZ
at 10. The merge keeps the live BTC quote and produces a manual XYZ quote
with `isManual = true` and null percent-change fields. -/
theorem manual_override_merge_witness :
    mergedPrices
        (fun tok => if tok = "BTC" then
          some ⟨50000, false, some 1, some 1, some 1, some 1⟩ else none)
        [⟨"XYZ", 10⟩] "BTC"
      = some ⟨50000, false, some 1, some 1, some 1, some 1⟩
    ∧ mergedPrices
        (fun tok => if tok = "BTC" then
          some ⟨50000, false, some 1, some 1, some 1, some 1⟩ else none)
        [⟨"XYZ", 10⟩] "XYZ"
      = some ⟨10, true, none, none, none, none⟩ := by
  constructor
  · exact (manual_override_merge _ [⟨"XYZ", 10⟩] "BTC" (by simp)).1
      ⟨50000, false, some 1, some 1, some 1, some 1⟩ (by simp) (by norm_num)
  · exact (manual_override_merge _ [⟨"XYZ", 10⟩] "XYZ" (by simp)).2
      ⟨"XYZ", 10⟩ (by simp [overrideNeeded]) (by simp)

/-- The price used for a holding in `calculatePortfolioValue` (`App.js`
1913-1914): `mergedPrices[token.toUpperCase()]?.price || 0`. -/
def priceVal (prices : String → Option Quote) (tok : String) : ℚ :=
  match prices (upper tok) with
  | some q => q.price
  | none => 0

/-- `calculatePortfolioValue` (`App.js` 1910-1922): sum of
`total_units × price` over every holding returned by `GET /portfolio`,
plus `usdcData.usdc_balance` when `usdcData` is present. -/
def calculatePortfolioValue (holdings : List Holding)
    (prices : String → Option Quote) (usdcData : Option UsdcData) : ℚ :=
  (holdings.map fun h => h.total_units * priceVal prices h.token).sum
    + match usdcData with
      | some u => u.usdc_balance
      | none => 0

lemma filter_map_mk_tok (trades : List Trade) (l : List String) :
    ((l.map fun tok =>
        (⟨tok, totalUnits trades tok, costBasis trades tok⟩ : Holding)).filter
          fun h => h.token = "USDC")
      = (l.filter fun tok => tok = "USDC").map fun tok =>
          (⟨tok, totalUnits trades tok, costBasis trades tok⟩ : Holding) := by
  induction l with
  | nil => rfl
  | cons t ts ih => by_cases h : t = "USDC" <;> simp [h, ih]

lemma filter_map_mk_tok_ne (trades : List Trade) (l : List String) :
    ((l.map fun tok =>
        (⟨tok, totalUnits trades tok, costBasis trades tok⟩ : Holding)).filter
          fun h => ¬ h.token = "USDC")
      = (l.filter fun tok => ¬ tok = "USDC").map fun tok =>
          (⟨tok, totalUnits trades tok, costBasis trades tok⟩ : Holding) := by
  simp only [decide_not]
  induction l with
  | nil => rfl
  | cons t ts ih => by_cases h : t = "USDC" <;> simp [h, ih]

lemma map_val_mk (trades : List Trade) (l : List String)
    (prices : String → Option Quote) :
    ((l.map fun tok =>
        (⟨tok, totalUnits trades tok, costBasis trades tok⟩ : Holding)).map
          fun h => h.total_units * priceVal prices h.token)
      = l.map fun tok => totalUnits trades tok * priceVal prices tok := by
  induction l with
  | nil => rfl
  | cons t ts ih => simp [ih]

lemma filter_eq_singleton_of_nodup (l : List String) (a : String)
    (hnd : l.Nodup) (ha : a ∈ l) : l.filter (fun x => x = a) = [a] := by
  induction l with
  | nil => simp at ha
  | cons x xs ih =>
    rw [List.nodup_cons] at hnd
    rw [List.mem_cons] at ha
    by_cases hx : x = a
    · have : xs.filter (fun y => y = a) = [] := by
        rw [List.filter_eq_nil_iff]
        intro y hy
        simp only [decide_eq_true_eq]
        intro hya
        exact hnd.1 ((hx.trans hya.symm) ▸ hy)
      simp [hx, this]
    · rcases ha with ha | ha
      · exact absurd ha.symm hx
      · simp [hx, ih hnd.2 ha]

/-- C10: `calculatePortfolioValue` over the `GET /portfolio` holdings is
the sum of `total_units × resolved price` over every returned holding plus
the `usdc_balance` residual; when the net USDC trade units exceed the dust
threshold, a holding with token "USDC" is among them and contributes
`totalUnits × resolved USDC price` on top of (not instead of) the
residual. -/
theorem portfolio_value_includes_usdc_holding (trades : List Trade)
    (prices : String → Option Quote) (u : UsdcData)
    (hU : "USDC" ∈ tokensOf trades)
    (hdust : totalUnits trades "USDC" > 1/10000
      ∨ totalUnits trades "USDC" < -(1/10000)) :
    calculatePortfolioValue (getPortfolio trades) prices (some u)
      = (((getPortfolio trades).filter fun h => ¬ h.token = "USDC").map
            fun h => h.total_units * priceVal prices h.token).sum
        + totalUnits trades "USDC" * priceVal prices "USDC"
        + u.usdc_balance := by
  have hk : "USDC" ∈ (tokensOf trades).filter fun tok =>
      totalUnits trades tok > 1/10000 ∨ totalUnits trades tok < -(1/10000) := by
    rw [← portfolioTokens_eq]
    exact (mem_portfolioTokens trades "USDC" hU).mpr hdust
  have hknd : ((tokensOf trades).filter fun tok =>
      totalUnits trades tok > 1/10000 ∨ totalUnits trades tok < -(1/10000)).Nodup :=
    List.Nodup.filter _ (List.nodup_dedup _)
  have hsplit := sum_map_filter_add_not (getPortfolio trades)
    (fun h => h.token = "USDC") (fun h => h.total_units * priceVal prices h.token)
  have husdc : ((getPortfolio trades).filter fun h => h.token = "USDC")
      = [⟨"USDC", totalUnits trades "USDC", costBasis trades "USDC"⟩] := by
    unfold getPortfolio
    rw [filter_map_mk_tok, filter_eq_singleton_of_nodup _ _ hknd hk]
    rfl
  simp only [calculatePortfolioValue]
  rw [← hsplit, husdc]
  simp only [List.map_cons, List.map_nil, List.sum_cons, List.sum_nil]
  ring

/-- C10 witness: a ledger holding 5 USDC (from trades) and 2 BTC; the
portfolio value decomposes into the BTC term, the USDC-holding term and
the cash residual. -/
theorem portfolio_value_includes_usdc_holding_witness :
    calculatePortfolioValue
        (getPortfolio [⟨"2024-01", "USDC", 5, none, some 5, .Buy⟩,
          ⟨"2024-01", "BTC", 2, none, some 100, .Buy⟩])
        (fun _ => none) (some ⟨0, 0, 0, 0, 40⟩)
      = (((getPortfolio [⟨"2024-01", "USDC", 5, none, some 5, .Buy⟩,
            ⟨"2024-01", "BTC", 2, none, some 100, .Buy⟩]).filter
              fun h => ¬ h.token = "USDC").map
            fun h => h.total_units * priceVal (fun _ => none) h.token).sum
        + totalUnits [⟨"2024-01", "USDC", 5, none, some 5, .Buy⟩,
            ⟨"2024-01", "BTC", 2, none, some 100, .Buy⟩] "USDC"
          * priceVal (fun _ => none) "USDC"
        + (40 : ℚ) := by
  exact portfolio_value_includes_usdc_holding _ _ ⟨0, 0, 0, 0, 40⟩
    (by simp [tokensOf])
    (by left; simp [totalUnits]; norm_num)

/-- `[...perfTracker].sort((a, b) => a.month.localeCompare(b.month))`
(`App.js` 1927).  JS `Array.prototype.sort` is stable, and a stable sort
is uniquely determined by its comparator, so the structural
`List.insertionSort` with the same month order embeds it exactly. -/
def sortedPerf (perf : List PerfRecord) : List PerfRecord :=
  perf.insertionSort fun a b => a.month ≤ b.month

/-- `sortedPerf.filter(p => p.month < currentMonth).pop()` (`App.js` 1931). -/
def lastBefore (perf : List PerfRecord) (currentMonth : String) : Option PerfRecord :=
  ((sortedPerf perf).filter fun p => p.month < currentMonth).getLast?

/-- `sortedPerf.filter(p => p.month.startsWith(String(currentYear - 1))).pop()`
(`App.js` 1936); the previous calendar year is passed as a string. -/
def lastPrevYearEnd (perf : List PerfRecord) (prevYear : String) : Option PerfRecord :=
  ((sortedPerf perf).filter fun p => p.month.startsWith prevYear).getLast?

/-- `usdcData?.total_subscriptions || 0`. -/
def subsOf : Option UsdcData → ℚ
  | some u => u.total_subscriptions
  | none => 0

/-- `lastMonthRecord?.ending_value || (usdcData?.total_subscriptions || 0)`
(`App.js` 1932): the JS `||` falls through when `ending_value` is falsy,
i.e. 0. -/
def beginningValue (perf : List PerfRecord) (usdcData : Option UsdcData)
    (currentMonth : String) : ℚ :=
  match lastBefore perf currentMonth with
  | some r => if r.ending_value = 0 then subsOf usdcData else r.ending_value
  | none => subsOf usdcData

/-- `lastYearEnd?.ending_value || beginningValue` (`App.js` 1937). -/
def yearStartValue (perf : List PerfRecord) (usdcData : Option UsdcData)
    (currentMonth prevYear : String) : ℚ :=
  match lastPrevYearEnd perf prevYear with
  | some r => if r.ending_value = 0 then beginningValue perf usdcData currentMonth
      else r.ending_value
  | none => beginningValue perf usdcData currentMonth

/-- `firstRecord ? (firstRecord.gp_subs + firstRecord.lp_subs) :
(usdcData?.total_subscriptions || 0)` (`App.js` 1943-1944). -/
def initialValue (perf : List PerfRecord) (usdcData : Option UsdcData) : ℚ :=
  match (sortedPerf perf).head? with
  | some r => r.gp_subs + r.lp_subs
  | none => subsOf usdcData

/-- The result of `calculateReturns`. -/
structure Returns where
  mtd : ℚ
  ytd : ℚ
  sinceInception : ℚ
deriving DecidableEq, Repr

/-- `calculateReturns` (`App.js` 1925-1948): each return is
`(totalValue / denominator - 1) * 100` guarded by `denominator > 0`,
else 0.  The current month and previous calendar year are parameters
(the code reads them from the system clock). -/
def calculateReturns (holdings : List Holding) (prices : String → Option Quote)
    (usdcData : Option UsdcData) (perf : List PerfRecord)
    (currentMonth prevYear : String) : Returns :=
  let totalValue := calculatePortfolioValue holdings prices usdcData
  let bv := beginningValue perf usdcData currentMonth
  let ysv := yearStartValue perf usdcData currentMonth prevYear
  let iv := initialValue perf usdcData
  ⟨if bv > 0 then (totalValue / bv - 1) * 100 else 0,
   if ysv > 0 then (totalValue / ysv - 1) * 100 else 0,
   if iv > 0 then (totalValue / iv - 1) * 100 else 0⟩

/-- C7: MTD, YTD and since-inception each collapse to 0 whenever their
denominator is not strictly positive; as total functions into `ℚ` they can
never be NaN or Infinity. -/
theorem returns_nonpositive_denominator (holdings : List Holding)
    (prices : String → Option Quote) (usdcData : Option UsdcData)
    (perf : List PerfRecord) (currentMonth prevYear : String) :
    (¬ beginningValue perf usdcData currentMonth > 0 →
      (calculateReturns holdings prices usdcData perf currentMonth prevYear).mtd = 0)
    ∧ (¬ yearStartValue perf usdcData currentMonth prevYear > 0 →
      (calculateReturns holdings prices usdcData perf currentMonth prevYear).ytd = 0)
    ∧ (¬ initialValue perf usdcData > 0 →
      (calculateReturns holdings prices usdcData perf currentMonth
        prevYear).sinceInception = 0) := by
  refine ⟨fun h => ?_, fun h => ?_, fun h => ?_⟩ <;>
    simp [calculateReturns, h]

/-- C7 witness: with no data at all, every denominator is 0 and all three
returns are 0. -/
theorem returns_nonpositive_denominator_witness :
    (calculateReturns [] (fun _ => none) none [] "2025-10" "2024").mtd = 0
    ∧ (calculateReturns [] (fun _ => none) none [] "2025-10" "2024").ytd = 0
    ∧ (calculateReturns [] (fun _ => none) none [] "2025-10"
        "2024").sinceInception = 0 := by
  have hb : beginningValue [] none "2025-10" = 0 := by
    simp [beginningValue, lastBefore, sortedPerf, subsOf]
  have hy : yearStartValue [] none "2025-10" "2024" = 0 := by
    simp [yearStartValue, lastPrevYearEnd, sortedPerf, hb]
  have hi : initialValue [] none = 0 := by
    simp [initialValue, sortedPerf, subsOf]
  have T := returns_nonpositive_denominator [] (fun _ => none) none []
    "2025-10" "2024"
  exact ⟨T.1 (by rw [hb]; norm_num), T.2.1 (by rw [hy]; norm_num),
    T.2.2 (by rw [hi]; norm_num)⟩

instance : IsTotal PerfRecord (fun a b => a.month ≤ b.month) :=
  ⟨fun a b => le_total a.month b.month⟩

instance : IsTrans PerfRecord (fun a b => a.month ≤ b.month) :=
  ⟨fun _ _ _ hab hbc => le_trans hab hbc⟩

lemma sortedPerf_sorted (perf : List PerfRecord) :
    (sortedPerf perf).Pairwise fun a b => a.month ≤ b.month :=
  List.sorted_insertionSort _ perf

lemma sortedPerf_perm (perf : List PerfRecord) : (sortedPerf perf).Perm perf :=
  List.perm_insertionSort _ perf

lemma mem_sortedPerf (perf : List PerfRecord) (p : PerfRecord) :
    p ∈ sortedPerf perf ↔ p ∈ perf :=
  (sortedPerf_perm perf).mem_iff

/-- The last element of a month-sorted list bounds the months of all its
elements. -/
lemma getLast_month_max {l : List PerfRecord}
    (hs : l.Pairwise fun a b => a.month ≤ b.month) {r : PerfRecord}
    (hr : l.getLast? = some r) : ∀ a ∈ l, a.month ≤ r.month := by
  intro a ha
  have hsplit : l.dropLast ++ [r] = l :=
    List.dropLast_append_getLast? r (Option.mem_def.mpr hr)
  rw [← hsplit] at hs ha
  rcases List.mem_append.mp ha with h | h
  · exact (List.pairwise_append.mp hs).2.2 a h r (by simp)
  · simp only [List.mem_singleton] at h
    exact h ▸ le_refl _

/-- The claim's reading of `beginning_of_month_value` (spec §4.5): the
`ending_value` of the latest record strictly before the current month,
falling back to `total_subscriptions` only when no such record exists. -/
def specBeginningValue (perf : List PerfRecord) (usdcData : Option UsdcData)
    (currentMonth : String) : ℚ :=
  match lastBefore perf currentMonth with
  | some r => r.ending_value
  | none => subsOf usdcData

/-- The claim's MTD formula: `(total / beginning - 1) × 100`, 0 when the
denominator is not positive. -/
def specMtd (totalValue bv : ℚ) : ℚ :=
  if bv > 0 then (totalValue / bv - 1) * 100 else 0

/-- A January 2025 record whose `ending_value` is 0. -/
def perfJan2025Zero : PerfRecord :=
  ⟨"2025-01", 0, 0, 0, 0, 0, 0, 0, 0, 0, 0, 0, 0, 0, 0⟩

/-- A January 2025 record with `ending_value = 110000`. -/
def perfJan2025 : PerfRecord :=
  ⟨"2025-01", 0, 0, 0, 110000, 0, 0, 0, 0, 0, 0, 0, 0, 0, 0⟩

/-- Cash data with 100000 of subscriptions and a 120000 balance. -/
def usdcSample : UsdcData := ⟨100000, 0, 0, 0, 120000⟩

lemma lastBefore_jan_zero :
    lastBefore [perfJan2025Zero] "2025-10" = some perfJan2025Zero := by
  simp only [lastBefore, sortedPerf, List.insertionSort, List.orderedInsert]
  simp
  decide

lemma lastBefore_jan :
    lastBefore [perfJan2025] "2025-10" = some perfJan2025 := by
  simp only [lastBefore, sortedPerf, List.insertionSort, List.orderedInsert]
  simp
  decide

/-- C3 counterexample: with a single prior record whose `ending_value` is
0 and 100000 of subscriptions, the code's beginning-of-month value is the
100000 fallback (JS `||` treats the 0 `ending_value` as falsy) and its MTD
is 20, while the claim prescribes beginning value 0 and MTD 0: the
fallback is not used "only when no such record exists". -/
theorem mtd_beginning_value_counterexample :
    beginningValue [perfJan2025Zero] (some usdcSample) "2025-10"
        ≠ specBeginningValue [perfJan2025Zero] (some usdcSample) "2025-10"
      ∧ (calculateReturns [] (fun _ => none) (some usdcSample) [perfJan2025Zero]
            "2025-10" "2024").mtd
        ≠ specMtd (calculatePortfolioValue [] (fun _ => none) (some usdcSample))
            (specBeginningValue [perfJan2025Zero] (some usdcSample) "2025-10") := by
  have hb : beginningValue [perfJan2025Zero] (some usdcSample) "2025-10"
      = 100000 := by
    unfold beginningValue
    rw [lastBefore_jan_zero]
    simp [perfJan2025Zero, subsOf, usdcSample]
  have hs : specBeginningValue [perfJan2025Zero] (some usdcSample) "2025-10"
      = 0 := by
    unfold specBeginningValue
    rw [lastBefore_jan_zero]
    rfl
  have htv : calculatePortfolioValue [] (fun _ => none) (some usdcSample)
      = 120000 := by
    simp [calculatePortfolioValue, usdcSample]
  constructor
  · rw [hb, hs]
    norm_num
  · have hmtd : (calculateReturns [] (fun _ => none) (some usdcSample)
        [perfJan2025Zero] "2025-10" "2024").mtd
        = (120000 / 100000 - 1) * 100 := by
      show (if beginningValue [perfJan2025Zero] (some usdcSample) "2025-10" > 0
          then (calculatePortfolioValue [] (fun _ => none) (some usdcSample)
            / beginningValue [perfJan2025Zero] (some usdcSample) "2025-10" - 1) * 100
          else 0) = (120000 / 100000 - 1) * 100
      rw [hb, htv]
      norm_num
    rw [hmtd, hs, specMtd]
    norm_num

/-- C3 amended: the beginning-of-month value is the `ending_value` of the
latest record strictly before the current month when that value is
nonzero; the fallback to `total_subscriptions` is used when no such record
exists or when that record's `ending_value` is 0 (JS `||`).  MTD is
`(total / beginning - 1) × 100`, 0 when the denominator is not positive. -/
theorem mtd_beginning_value_fallback (holdings : List Holding)
    (prices : String → Option Quote) (usdcData : Option UsdcData)
    (perf : List PerfRecord) (currentMonth prevYear : String) :
    (lastBefore perf currentMonth = none →
      (∀ p ∈ perf, ¬ p.month < currentMonth)
      ∧ beginningValue perf usdcData currentMonth = subsOf usdcData)
    ∧ (∀ r, lastBefore perf currentMonth = some r →
        r ∈ perf ∧ r.month < currentMonth
        ∧ (∀ p ∈ perf, p.month < currentMonth → p.month ≤ r.month)
        ∧ beginningValue perf usdcData currentMonth
            = (if r.ending_value = 0 then subsOf usdcData else r.ending_value))
    ∧ (calculateReturns holdings prices usdcData perf currentMonth prevYear).mtd
        = (if beginningValue perf usdcData currentMonth > 0 then
            (calculatePortfolioValue holdings prices usdcData
              / beginningValue perf usdcData currentMonth - 1) * 100
          else 0) := by
  refine ⟨fun h => ⟨?_, ?_⟩, fun r hr => ?_, ?_⟩
  · intro p hp hlt
    have hnil : ((sortedPerf perf).filter fun p => p.month < currentMonth) = [] :=
      List.getLast?_eq_none_iff.mp h
    have : p ∈ (sortedPerf perf).filter fun p => p.month < currentMonth :=
      List.mem_filter.mpr ⟨(mem_sortedPerf perf p).mpr hp, by simpa using hlt⟩
    rw [hnil] at this
    simp at this
  · unfold beginningValue
    rw [h]
  · have hmemf : r ∈ (sortedPerf perf).filter fun p => p.month < currentMonth := by
      have hsplit := List.dropLast_append_getLast? r (Option.mem_def.mpr hr)
      rw [← hsplit]
      exact List.mem_append_right _ (by simp)
    rcases List.mem_filter.mp hmemf with ⟨hmem, hltb⟩
    refine ⟨(mem_sortedPerf perf r).mp hmem, by simpa using hltb, ?_, ?_⟩
    · intro p hp hplt
      have hpf : p ∈ (sortedPerf perf).filter fun p => p.month < currentMonth :=
        List.mem_filter.mpr ⟨(mem_sortedPerf perf p).mpr hp, by simpa using hplt⟩
      exact getLast_month_max
        (List.Pairwise.sublist (List.filter_sublist _) (sortedPerf_sorted perf))
        hr p hpf
    · unfold beginningValue
      rw [hr]
  · rfl

/-- C3 witness: with a single prior record ending at 110000 and a current
value of 120000, the beginning value is that record's `ending_value` and
MTD follows the formula. -/
theorem mtd_beginning_value_fallback_witness :
    beginningValue [perfJan2025] (some usdcSample) "2025-10" = 110000
      ∧ (calculateReturns [] (fun _ => none) (some usdcSample) [perfJan2025]
            "2025-10" "2024").mtd = (120000 / 110000 - 1) * 100 := by
  have T := mtd_beginning_value_fallback [] (fun _ => none) (some usdcSample)
    [perfJan2025] "2025-10" "2024"
  have hb := (T.2.1 perfJan2025 lastBefore_jan).2.2.2
  have hb' : beginningValue [perfJan2025] (some usdcSample) "2025-10"
      = 110000 := by
    rw [hb]
    norm_num [perfJan2025]
  refine ⟨hb', ?_⟩
  rw [T.2.2, hb']
  have htv : calculatePortfolioValue [] (fun _ => none) (some usdcSample)
      = 120000 := by
    simp [calculatePortfolioValue, usdcSample]
  rw [htv]
  norm_num

/-- A row of the Portfolio tab's `enrichedHoldings` (`App.js` 2089-2137).
The percent-change fields are `Option ℚ`: `none` embeds JS
`null`/`undefined`. -/
structure EnrichedHolding where
  token : String
  total_units : ℚ
  cost_basis : ℚ
  currentPrice : ℚ
  currentValue : ℚ
  pnl : ℚ
  weight : ℚ
  hasCMCData : Bool
  isManualPrice : Bool
  percent_change_24h : Option ℚ
  percent_change_7d : Option ℚ
  percent_change_30d : Option ℚ
  percent_change_60d : Option ℚ
deriving DecidableEq, Repr

/-- The `map` body of `enrichedHoldings` (`App.js` 2092-2114): price
lookup under the uppercased token, `|| 0` defaults, pnl, weight and the
pass-through of trend fields. -/
def enrichOne (prices cmcPrices : String → Option Quote) (portfolioValue : ℚ)
    (h : Holding) : EnrichedHolding :=
  let tok := upper h.token
  let currentPrice := match prices tok with
    | some q => q.price
    | none => 0
  let currentValue := h.total_units * currentPrice
  ⟨h.token, h.total_units, h.cost_basis, currentPrice, currentValue,
   currentValue - h.cost_basis,
   if portfolioValue > 0 then currentValue / portfolioValue * 100 else 0,
   (match cmcPrices tok with
    | some q => decide (¬ q.price = 0)
    | none => false),
   (match prices tok with
    | some q => q.isManual
    | none => false),
   (match prices tok with
    | some q => q.percent_change_24h
    | none => none),
   (match prices tok with
    | some q => q.percent_change_7d
    | none => none),
   (match prices tok with
    | some q => q.percent_change_30d
    | none => none),
   (match prices tok with
    | some q => q.percent_change_60d
    | none => none)⟩

/-- The synthetic USDC row pushed by `enrichedHoldings` (`App.js`
2117-2134): price 1, value and cost basis both the USDC balance, pnl 0,
`hasCMCData = true`, and all four percent-change fields set to the number
0. -/
def usdcSyntheticHolding (u : UsdcData) (portfolioValue : ℚ) : EnrichedHolding :=
  ⟨"USDC", u.usdc_balance, u.usdc_balance, 1, u.usdc_balance, 0,
   if portfolioValue > 0 then u.usdc_balance / portfolioValue * 100 else 0,
   true, false, some 0, some 0, some 0, some 0⟩

/-- `enrichedHoldings` (`App.js` 2089-2137): enrich the non-USDC holdings,
then append the synthetic USDC row when `usdcData` is present with a
nonzero balance. -/
def enrichedHoldings (holdings : List Holding)
    (prices cmcPrices : String → Option Quote) (usdcData : Option UsdcData)
    (portfolioValue : ℚ) : List EnrichedHolding :=
  let items := (holdings.filter fun h => ¬ upper h.token = "USDC").map
    (enrichOne prices cmcPrices portfolioValue)
  match usdcData with
  | some u =>
    if u.usdc_balance ≠ 0 then items ++ [usdcSyntheticHolding u portfolioValue]
    else items
  | none => items

/-- C4 counterexample: with a nonzero balance the synthetic USDC row is
appended, but its four percent-change fields are the number 0 (`some 0`),
not null (`none`) as the claim states. -/
theorem usdc_synthetic_holding_counterexample :
    enrichedHoldings [] (fun _ => none) (fun _ => none) (some ⟨0, 0, 0, 0, 100⟩) 100
        = [usdcSyntheticHolding ⟨0, 0, 0, 0, 100⟩ 100]
      ∧ (usdcSyntheticHolding ⟨0, 0, 0, 0, 100⟩ 100).percent_change_24h = some 0
      ∧ (usdcSyntheticHolding ⟨0, 0, 0, 0, 100⟩ 100).percent_change_7d = some 0
      ∧ (usdcSyntheticHolding ⟨0, 0, 0, 0, 100⟩ 100).percent_change_30d = some 0
      ∧ (usdcSyntheticHolding ⟨0, 0, 0, 0, 100⟩ 100).percent_change_60d = some 0
      ∧ (usdcSyntheticHolding ⟨0, 0, 0, 0, 100⟩ 100).percent_change_24h ≠ none := by
  refine ⟨?_, rfl, rfl, rfl, rfl, by simp [usdcSyntheticHolding]⟩
  simp [enrichedHoldings]

/-- C4 amended: the synthetic USDC row appears iff `usdc_balance ≠ 0`
(given cash data is present); it has price 1, market value and cost basis
equal to `usdc_balance` and pnl 0, but its four percent-change fields are
the number 0, not null. -/
theorem usdc_synthetic_holding_shape (holdings : List Holding)
    (prices cmcPrices : String → Option Quote) (u : UsdcData) (pv : ℚ) :
    (u.usdc_balance ≠ 0 →
      enrichedHoldings holdings prices cmcPrices (some u) pv
        = ((holdings.filter fun h => ¬ upper h.token = "USDC").map
            (enrichOne prices cmcPrices pv)) ++ [usdcSyntheticHolding u pv]
      ∧ (usdcSyntheticHolding u pv).currentPrice = 1
      ∧ (usdcSyntheticHolding u pv).currentValue = u.usdc_balance
      ∧ (usdcSyntheticHolding u pv).cost_basis = u.usdc_balance
      ∧ (usdcSyntheticHolding u pv).pnl = 0
      ∧ (usdcSyntheticHolding u pv).percent_change_24h = some 0
      ∧ (usdcSyntheticHolding u pv).percent_change_7d = some 0
      ∧ (usdcSyntheticHolding u pv).percent_change_30d = some 0
      ∧ (usdcSyntheticHolding u pv).percent_change_60d = some 0)
    ∧ (u.usdc_balance = 0 →
      ∀ it ∈ enrichedHoldings holdings prices cmcPrices (some u) pv,
        ¬ upper it.token = "USDC") := by
  constructor
  · intro h
    refine ⟨?_, rfl, rfl, rfl, rfl, rfl, rfl, rfl, rfl⟩
    simp only [enrichedHoldings]
    rw [if_pos h]
  · intro h it hit
    simp only [enrichedHoldings] at hit
    rw [if_neg (by simp [h])] at hit
    rcases List.mem_map.mp hit with ⟨h', hh', rfl⟩
    have : ¬ upper h'.token = "USDC" := by
      have h2 := (List.mem_filter.mp hh').2
      simpa using h2
    exact this

/-- C4 witness: with a 250 balance the synthetic row is the sole holding
and carries the stated fields; with a 0 balance no USDC row appears. -/
theorem usdc_synthetic_holding_shape_witness :
    enrichedHoldings [] (fun _ => none) (fun _ => none) (some ⟨0, 0, 0, 0, 250⟩) 250
        = [usdcSyntheticHolding ⟨0, 0, 0, 0, 250⟩ 250]
      ∧ (usdcSyntheticHolding ⟨0, 0, 0, 0, 250⟩ 250).currentValue = 250 := by
  have T := (usdc_synthetic_holding_shape [] (fun _ => none) (fun _ => none)
    ⟨0, 0, 0, 0, 250⟩ 250).1 (by norm_num)
  exact ⟨by rw [T.1]; rfl, T.2.2.1⟩

/-- A spreadsheet row of `POST /upload/trades` after column lookup and
number parsing (`index.js` 841-862): `token` is the looked-up cell
(`none` = column missing/null), `units` is the `parseFloat` result
(`none` = missing or NaN), `total` likewise (`none` also stands for the
falsy 0-vs-null distinction handled below), `avgPrice` the parsed price. -/
structure UploadRow where
  token : Option String
  units : Option ℚ
  avgPrice : Option ℚ
  total : Option ℚ
deriving DecidableEq, Repr

/-- What happens to one row in the import loop (`index.js` 837-909).  The
`catch` branch for a thrown row error is unreachable in this pure
translation, so every row is imported or skipped for one of the three
explicit reasons. -/
inductive RowOutcome
| imported
| skippedNoToken
| skippedZeroUnits
| skippedInvalidUnits
deriving DecidableEq, Repr

/-- The per-row control flow of `POST /upload/trades`: skip when the token
is missing or blank, skip when `parseFloat(units)` is NaN, skip when units
is exactly 0 and the total is falsy (absent or 0), else insert. -/
def processRow (row : UploadRow) : RowOutcome :=
  match row.token with
  | none => .skippedNoToken
  | some tok =>
    if tok.trim = "" then .skippedNoToken
    else match row.units with
      | none => .skippedInvalidUnits
      | some u =>
        if u = 0 ∧ (row.total = none ∨ row.total = some 0) then .skippedZeroUnits
        else .imported

/-- The counters reported by `POST /upload/trades` (`index.js` 920-928). -/
structure UploadResult where
  imported : ℕ
  skipped : ℕ
  total : ℕ
  noToken : ℕ
  zeroUnits : ℕ
  invalidUnits : ℕ
  otherErrors : ℕ
deriving DecidableEq, Repr

/-- One iteration of the import loop updating the counters. -/
def uploadStep (acc : UploadResult) (row : UploadRow) : UploadResult :=
  match processRow row with
  | .imported => { acc with imported := acc.imported + 1 }
  | .skippedNoToken =>
    { acc with skipped := acc.skipped + 1, noToken := acc.noToken + 1 }
  | .skippedZeroUnits =>
    { acc with skipped := acc.skipped + 1, zeroUnits := acc.zeroUnits + 1 }
  | .skippedInvalidUnits =>
    { acc with skipped := acc.skipped + 1, invalidUnits := acc.invalidUnits + 1 }

/-- `POST /upload/trades`: process every row and report the counters,
with `total` the number of parsed rows. -/
def uploadTrades (rows : List UploadRow) : UploadResult :=
  { rows.foldl uploadStep ⟨0, 0, 0, 0, 0, 0, 0⟩ with total := rows.length }

lemma uploadStep_counts (rows : List UploadRow) (acc : UploadResult) :
    (rows.foldl uploadStep acc).imported + (rows.foldl uploadStep acc).skipped
        = acc.imported + acc.skipped + rows.length
      ∧ (rows.foldl uploadStep acc).skipped
          + (acc.noToken + acc.zeroUnits + acc.invalidUnits + acc.otherErrors)
        = ((rows.foldl uploadStep acc).noToken + (rows.foldl uploadStep acc).zeroUnits
            + (rows.foldl uploadStep acc).invalidUnits
            + (rows.foldl uploadStep acc).otherErrors)
          + acc.skipped := by
  induction rows generalizing acc with
  | nil =>
    simp only [List.foldl_nil, List.length_nil]
    omega
  | cons row rest ih =>
    rw [List.foldl_cons]
    have h := ih (uploadStep acc row)
    cases hpr : processRow row <;>
      simp only [uploadStep, hpr, List.length_cons] at h ⊢ <;>
      exact ⟨by omega, by omega⟩

/-- C8: the bulk trades import processes every row of a non-empty upload,
reports `imported + skipped = total` with `total` the number of rows, and
attributes every skipped row to a reason counter (no token, zero units,
invalid units, or other error). -/
theorem upload_trades_counts (rows : List UploadRow) (hne : rows ≠ []) :
    (uploadTrades rows).imported + (uploadTrades rows).skipped
        = (uploadTrades rows).total
      ∧ (uploadTrades rows).total = rows.length
      ∧ (uploadTrades rows).skipped
        = (uploadTrades rows).noToken + (uploadTrades rows).zeroUnits
          + (uploadTrades rows).invalidUnits + (uploadTrades rows).otherErrors := by
  have h := uploadStep_counts rows ⟨0, 0, 0, 0, 0, 0, 0⟩
  simp only [Nat.zero_add, Nat.add_zero] at h
  refine ⟨?_, rfl, ?_⟩ <;> simp only [uploadTrades] <;> omega

/-- C8 witness: a four-row upload with one good row, one blank-token row,
one NaN-units row and one zero-units row reports 1 imported and 3 skipped,
all attributed. -/
theorem upload_trades_counts_witness :
    (uploadTrades [⟨some "BTC", some 1, none, some 100⟩,
        ⟨some " ", some 1, none, some 100⟩,
        ⟨some "ETH", none, none, some 100⟩,
        ⟨some "SOL", some 0, none, none⟩]).imported
      + (uploadTrades [⟨some "BTC", some 1, none, some 100⟩,
          ⟨some " ", some 1, none, some 100⟩,
          ⟨some "ETH", none, none, some 100⟩,
          ⟨some "SOL", some 0, none, none⟩]).skipped
      = (uploadTrades [⟨some "BTC", some 1, none, some 100⟩,
          ⟨some " ", some 1, none, some 100⟩,
          ⟨some "ETH", none, none, some 100⟩,
          ⟨some "SOL", some 0, none, none⟩]).total := by
  exact (upload_trades_counts _ (by simp)).1

/-- The values `POST /upload/perf-tracker` parses from a spreadsheet row
(`index.js` 1077-1095): a month and eleven numeric columns — the
expense columns are not among them. -/
structure PerfUploadInput where
  month : String
  gp_subs : ℚ
  lp_subs : ℚ
  initial_value : ℚ
  ending_value : ℚ
  motus_return : ℚ
  btc_return : ℚ
  eth_return : ℚ
  cci30_return : ℚ
  sp_ex_mega_return : ℚ
  spx_return : ℚ
  qqq_return : ℚ
deriving DecidableEq, Repr

/-- `POST /perf-tracker` (`index.js` 399-438): INSERT .. ON CONFLICT(month)
DO UPDATE SET with every column listed, so the stored record for the month
becomes exactly the submitted one.  Since `perf_tracker.month` is UNIQUE,
the table is embedded as a partial map keyed by month. -/
def upsertPerfManual (tbl : String → Option PerfRecord) (input : PerfRecord) :
    String → Option PerfRecord :=
  fun m => if m = input.month then some input else tbl m

/-- The record stored by the upload upsert (`index.js` 1049-1067): the
INSERT lists only the 12 parsed columns, so a fresh row takes the
`DEFAULT 0` expense columns, and the DO UPDATE clause does not mention
`fund_expenses`, `mgmt_fees`, `setup_costs`, so a conflicting update keeps
the old values. -/
def uploadPerfRecord (input : PerfUploadInput) (old : Option PerfRecord) :
    PerfRecord :=
  match old with
  | none =>
    ⟨input.month, input.gp_subs, input.lp_subs, input.initial_value,
     input.ending_value, input.motus_return, input.btc_return, input.eth_return,
     input.cci30_return, input.sp_ex_mega_return, input.spx_return,
     input.qqq_return, 0, 0, 0⟩
  | some o =>
    ⟨input.month, input.gp_subs, input.lp_subs, input.initial_value,
     input.ending_value, input.motus_return, input.btc_return, input.eth_return,
     input.cci30_return, input.sp_ex_mega_return, input.spx_return,
     input.qqq_return, o.fund_expenses, o.mgmt_fees, o.setup_costs⟩

/-- `POST /upload/perf-tracker`: per-row upsert keyed on month. -/
def upsertPerfUpload (tbl : String → Option PerfRecord)
    (input : PerfUploadInput) : String → Option PerfRecord :=
  fun m => if m = input.month then some (uploadPerfRecord input (tbl input.month))
    else tbl m

/-- A pre-existing January 2024 record with expenses (100, 20, 30). -/
def perfOldA : PerfRecord :=
  ⟨"2024-01", 1, 1, 1, 1, 1, 1, 1, 1, 1, 1, 1, 100, 20, 30⟩

/-- The same record with `fund_expenses` 200 instead of 100. -/
def perfOldB : PerfRecord :=
  ⟨"2024-01", 1, 1, 1, 1, 1, 1, 1, 1, 1, 1, 1, 200, 20, 30⟩

/-- An uploaded row re-submitting January 2024. -/
def perfUploadJan : PerfUploadInput := ⟨"2024-01", 2, 3, 4, 5, 6, 7, 8, 9, 10, 11, 12⟩

/-- C9 counterexample: re-submitting an existing month through the
spreadsheet upload does not overwrite all fields — the stored record keeps
the pre-existing `fund_expenses` (100), and uploading the very same row
over a table that differs only in the old `fund_expenses` yields a
different stored record, so the result is not determined by the submitted
values alone. -/
theorem perf_upsert_counterexample :
    upsertPerfUpload (fun m => if m = "2024-01" then some perfOldA else none)
        perfUploadJan "2024-01"
      = some ⟨"2024-01", 2, 3, 4, 5, 6, 7, 8, 9, 10, 11, 12, 100, 20, 30⟩
    ∧ upsertPerfUpload (fun m => if m = "2024-01" then some perfOldA else none)
          perfUploadJan "2024-01"
        ≠ upsertPerfUpload (fun m => if m = "2024-01" then some perfOldB else none)
            perfUploadJan "2024-01" := by
  constructor
  · simp [upsertPerfUpload, uploadPerfRecord, perfUploadJan, perfOldA]
  · simp [upsertPerfUpload, uploadPerfRecord, perfUploadJan, perfOldA, perfOldB]

/-- C9 amended: re-submitting an existing month via `POST /perf-tracker`
overwrites every field with the submitted values; re-submitting via
`POST /upload/perf-tracker` overwrites the twelve uploaded columns but
keeps the stored `fund_expenses`, `mgmt_fees` and `setup_costs`. -/
theorem perf_upsert_overwrite (tbl : String → Option PerfRecord)
    (minput : PerfRecord) (uinput : PerfUploadInput) (old : PerfRecord)
    (hold : tbl uinput.month = some old) :
    upsertPerfManual tbl minput minput.month = some minput
    ∧ upsertPerfUpload tbl uinput uinput.month
        = some ⟨uinput.month, uinput.gp_subs, uinput.lp_subs,
            uinput.initial_value, uinput.ending_value, uinput.motus_return,
            uinput.btc_return, uinput.eth_return, uinput.cci30_return,
            uinput.sp_ex_mega_return, uinput.spx_return, uinput.qqq_return,
            old.fund_expenses, old.mgmt_fees, old.setup_costs⟩ := by
  constructor
  · simp [upsertPerfManual]
  · simp [upsertPerfUpload, hold, uploadPerfRecord]

/-- C9 witness: over a table holding `perfOldA` for January 2024, the
manual upsert stores exactly the submitted record and the upload upsert
keeps the old expense fields. -/
theorem perf_upsert_overwrite_witness :
    upsertPerfManual (fun m => if m = "2024-01" then some perfOldA else none)
        perfOldB perfOldB.month = some perfOldB
    ∧ upsertPerfUpload (fun m => if m = "2024-01" then some perfOldA else none)
          perfUploadJan perfUploadJan.month
        = some ⟨perfUploadJan.month, perfUploadJan.gp_subs, perfUploadJan.lp_subs,
            perfUploadJan.initial_value, perfUploadJan.ending_value,
            perfUploadJan.motus_return, perfUploadJan.btc_return,
            perfUploadJan.eth_return, perfUploadJan.cci30_return,
            perfUploadJan.sp_ex_mega_return, perfUploadJan.spx_return,
            perfUploadJan.qqq_return, perfOldA.fund_expenses, perfOldA.mgmt_fees,
            perfOldA.setup_costs⟩ := by
  exact perf_upsert_overwrite
    (fun m => if m = "2024-01" then some perfOldA else none)
    perfOldB perfUploadJan perfOldA (by simp [perfUploadJan])

end PMS
